/-
  Verification of the DataAnnotationQA thermal-annotation pipeline.

  Shallow embedding of the decode / align / render core:
  * `matchTimestamp`    — AnnotationLoader.match_frame_to_annotation
                          (src/src/visualize_annotations/loader.py) and
                          YOLOExporter._find_frame_by_timestamp
                          (src/export_yolo_annotations.py): linear scan keeping
                          the strictly smaller delta, accept iff min < tolerance.
  * binary frame decode — TDengineConnector._decompress_frame_data
                          (src/src/data_pipeline/thermal_dataset.py).
  * text frame decode   — ThermalDataLoader.load_from_text_file
                          (src/src/thermal_data_processing/data_loader.py).
  * batch matching      — TDengineConnector.batch_query_frames.
  * rendering           — AnnotationVisualizer (visualizer.py).

  Machine integers are modelled as Nat/Int with explicit wrap where the source
  wraps; temperatures and normalized coordinates are modelled as ℚ.
-/
import Mathlib

namespace DataAnnotationQA

/-! ## Definitions

### Temporal alignment (single match)

Embeds the loop of `AnnotationLoader.match_frame_to_annotation`
(loader.py lines 175-191): `min_diff` starts at infinity, each candidate
with a strictly smaller absolute delta replaces the running best, and the
best is returned only when `min_diff < tolerance_ms`.  Starting the scan
at the first candidate is equivalent to the infinite initial `min_diff`. -/

/-- Running-minimum scan over the remaining candidates; `b` is the current
best candidate and `d` its absolute delta to the query. -/
def scanMinAux (q : Int) : List Int → Int → Nat → Int × Nat
  | [], b, d => (b, d)
  | c :: cs, b, d =>
    if (c - q).natAbs < d then scanMinAux q cs c (c - q).natAbs
    else scanMinAux q cs b d

/-- Single-match temporal alignment: return the first candidate attaining the
minimum absolute delta, provided that minimum is strictly below `tol`. -/
def matchTimestamp (q : Int) (cands : List Int) (tol : Nat) : Option Int :=
  match cands with
  | [] => none
  | c :: cs =>
    let r := scanMinAux q cs c ((c - q).natAbs)
    if r.2 < tol then some r.1 else none

/-! ### Character classes

ASCII versions of the Python predicates used by the decoders: regex `\d`,
regex `\s`, regex `[\d.]`, and the hex-digit set of
`_decompress_frame_data` (thermal_dataset.py line 149). -/

def isDigitC (c : Char) : Bool := decide ('0' ≤ c) && decide (c ≤ '9')

def isWSChar (c : Char) : Bool :=
  decide (c = ' ') || decide (c = '\t') || decide (c = '\n') || decide (c = '\r')
  || decide (c = '\x0b') || decide (c = '\x0c')

def isTsChar (c : Char) : Bool := isDigitC c || decide (c = '.')

def isHexChar (c : Char) : Bool :=
  isDigitC c || (decide ('a' ≤ c) && decide (c ≤ 'f')) || (decide ('A' ≤ c) && decide (c ≤ 'F'))

def hexVal (c : Char) : Nat :=
  if isDigitC c then c.toNat - 48
  else if decide ('a' ≤ c) && decide (c ≤ 'f') then c.toNat - 97 + 10
  else c.toNat - 65 + 10

/-! ### Binary wire-payload decode

Embeds `TDengineConnector._decompress_frame_data`
(thermal_dataset.py lines 146-181).  The encoded string is decoded as hex
when it consists purely of hex digits and `bytes.fromhex` succeeds
(which additionally requires an even digit count), with base64 as the
fallback; the zlib inflation itself is a library call outside the
repository, so the size dispatch below starts from the decompressed
bytes.  Bytes are `Nat` values taken mod 256 where the source reads them;
`struct.unpack` is little-endian on the deployment platforms. -/

/-- Hex decode of a digit string, two digits per byte; `none` mirrors the
`ValueError` of `bytes.fromhex` on an odd count (the all-hex caller never
passes non-hex characters, and such strings contain no spaces). -/
def fromHex : List Char → Option (List Nat)
  | [] => some []
  | [_] => none
  | c1 :: c2 :: rest =>
    if isHexChar c1 && isHexChar c2 then
      (fromHex rest).map fun bs => (16 * hexVal c1 + hexVal c2) :: bs
    else none

/-- Outcome of the hex/base64 dispatch: either hex-decoded bytes, or the
string handed to the base64 decoder (a library call). -/
inductive WireDecoded where
  | hexBytes (bs : List Nat)
  | b64Input (s : List Char)
deriving DecidableEq

/-- Encoding dispatch of `_decompress_frame_data` lines 148-154: try hex
when every character is a hex digit, fall back to base64 when the string
is not all-hex or when `bytes.fromhex` raises (odd digit count). -/
def decodeWire (s : List Char) : WireDecoded :=
  if s.all isHexChar then
    match fromHex s with
    | some bs => WireDecoded.hexBytes bs
    | none => WireDecoded.b64Input s
  else WireDecoded.b64Input s

/-- Signed 16-bit little-endian value from two bytes (`struct.unpack 'h'`). -/
def byteToInt16 (lo hi : Nat) : Int :=
  if (hi % 256) * 256 + lo % 256 < 32768 then ((hi % 256) * 256 + lo % 256 : Int)
  else ((hi % 256) * 256 + lo % 256 : Int) - 65536

/-- Consecutive byte pairs as int16 values (`struct.unpack '{n}h'`). -/
def pairsToInt16 : List Nat → List Int
  | b0 :: b1 :: rest => byteToInt16 b0 b1 :: pairsToInt16 rest
  | _ => []

/-- Consecutive byte quadruples as raw little-endian 32-bit words
(the payload of `struct.unpack '{n}f'`; IEEE-754 bit patterns are kept
opaque). -/
def quadsToBits : List Nat → List Nat
  | b0 :: b1 :: b2 :: b3 :: rest =>
    ((b0 % 256) + 256 * (b1 % 256) + 65536 * (b2 % 256) + 16777216 * (b3 % 256))
      :: quadsToBits rest
  | _ => []

/-- A decoded frame element: a Celsius temperature produced by the int16
deci-Kelvin branch, or the raw bits of a float32 already in Celsius. -/
inductive FrameVal where
  | cel (q : ℚ)
  | f32 (bits : Nat)
deriving DecidableEq

/-- Conversion `(val / 10.0) - 273.15` of thermal_dataset.py line 166. -/
def deciKelvinToCelsius (v : Int) : ℚ := (v : ℚ) / 10 - 27315 / 100

/-- Size dispatch of `_decompress_frame_data` lines 159-172: byte length
`w*h*2` selects the int16 deci-Kelvin branch, `w*h*4` the float32 branch,
anything else raises `ValueError("Unexpected data size: ...")`. -/
def decodeBySize (bytes : List Nat) (w h : Nat) : Except String (List FrameVal) :=
  if bytes.length = w * h * 2 then
    Except.ok ((pairsToInt16 bytes).map fun v => FrameVal.cel (deciKelvinToCelsius v))
  else if bytes.length = w * h * 4 then
    Except.ok ((quadsToBits bytes).map FrameVal.f32)
  else Except.error "Unexpected data size"

/-- Row-major reshape into `hgt` rows of `wid` entries (numpy
`reshape(height, width)`). -/
def reshape {α : Type} : Nat → Nat → List α → List (List α)
  | 0, _, _ => []
  | Nat.succ h2, wid, l => l.take wid :: reshape h2 wid (l.drop wid)

/-- Horizontal flip (numpy `fliplr`): mirror every row on the width axis. -/
def flipLR {α : Type} (rows : List (List α)) : List (List α) := rows.map List.reverse

/-- Reshape-then-flip tail of `_decompress_frame_data` lines 174-181:
mandatory left-right flip after the row-major reshape. -/
def decompressFrameData (bytes : List Nat) (w h : Nat) :
    Except String (List (List FrameVal)) :=
  (decodeBySize bytes w h).map fun vs => flipLR (reshape h w vs)

/-- Pixel accessor for a decoded frame result. -/
def framePixel (e : Except String (List (List FrameVal))) (r c : Nat) : Option FrameVal :=
  match e with
  | Except.ok rows => (rows[r]?).bind fun row => row[c]?
  | Except.error _ => none

/-- Pixel accessor for a plain row-major frame. -/
def rowsPixel {α : Type} (rows : List (List α)) (r c : Nat) : Option α :=
  (rows[r]?).bind fun row => row[c]?

/-- Decidable equality for `Except`, so concrete decode results can be
checked by `decide`. -/
instance {ε α : Type} [DecidableEq ε] [DecidableEq α] : DecidableEq (Except ε α) :=
  fun a b =>
    match a, b with
    | Except.ok x, Except.ok y =>
      if h : x = y then isTrue (by rw [h]) else isFalse (fun hh => h (Except.ok.inj hh))
    | Except.error x, Except.error y =>
      if h : x = y then isTrue (by rw [h]) else isFalse (fun hh => h (Except.error.inj hh))
    | Except.ok _, Except.error _ => isFalse (fun hh => Except.noConfusion hh)
    | Except.error _, Except.ok _ => isFalse (fun hh => Except.noConfusion hh)

/-! ### Text-path decode

Embeds `ThermalDataLoader.load_from_text_file`
(data_loader.py lines 39-97): skip the header line, strip each line, pull
out a `t:<float>` timestamp with `re.search(r't:\s*([\d.]+)')` and delete
every occurrence with `re.sub`, blank all characters outside `[\d\s]`,
split on whitespace, keep exactly-5-digit tokens as deci-Kelvin, and emit
a row-major frame when at least `height*width` tokens survive.  Lines are
modelled as `List Char`; since `\s` and `[\d.]` match disjoint character
sets, the greedy `\s*` / `[\d.]+` of the regex are exactly
`dropWhile` / `takeWhile`. -/

/-- Strip leading and trailing whitespace (Python `str.strip`). -/
def stripWS (l : List Char) : List Char :=
  ((l.dropWhile isWSChar).reverse.dropWhile isWSChar).reverse

/-- Match the regex `t:\s*([\d.]+)` at the head of the list, returning the
captured group and the remainder after the match. -/
def matchTsAt (l : List Char) : Option (List Char × List Char) :=
  match l with
  | c1 :: c2 :: rest =>
    if c1 = 't' ∧ c2 = ':' then
      if (rest.dropWhile isWSChar).takeWhile isTsChar = [] then none
      else some ((rest.dropWhile isWSChar).takeWhile isTsChar,
        (rest.dropWhile isWSChar).drop ((rest.dropWhile isWSChar).takeWhile isTsChar).length)
    else none
  | _ => none

/-- Leftmost regex search (`re.search`), returning the captured group. -/
def searchTs : List Char → Option (List Char)
  | [] => none
  | c :: cs =>
    match matchTsAt (c :: cs) with
    | some gr => some gr.1
    | none => searchTs cs

/-- Remove every non-overlapping match of `t:\s*[\d.]+` (`re.sub` with an
empty replacement), scanning left to right.  The fuel argument only makes
the recursion structural: every match consumes at least two characters, so
fuel equal to the list length (as supplied by `removeTsAll`) never runs
out. -/
def removeTsFuel : Nat → List Char → List Char
  | _, [] => []
  | 0, l => l
  | fuel + 1, c1 :: cs =>
    match matchTsAt (c1 :: cs) with
    | some gr => removeTsFuel fuel gr.2
    | none => c1 :: removeTsFuel fuel cs

/-- Delete all `t:\s*[\d.]+` matches from a line (`re.sub`, line 70). -/
def removeTsAll (l : List Char) : List Char := removeTsFuel l.length l

/-- Decimal digits to a natural number. -/
def digitsToNat (l : List Char) : Nat := l.foldl (fun acc c => 10 * acc + (c.toNat - 48)) 0

/-- Python `float()` on the captured `[\d.]+` group: digits with at most
one dot, at least one digit overall; anything else raises `ValueError`
(e.g. `float("1.2.3")`), which aborts the whole load. -/
def parsePyFloat (g : List Char) : Except String ℚ :=
  match g.splitOn '.' with
  | [a] =>
    if a ≠ [] ∧ a.all isDigitC = true then Except.ok ((digitsToNat a : ℚ))
    else Except.error "ValueError"
  | [a, b] =>
    if (a ≠ [] ∨ b ≠ []) ∧ a.all isDigitC = true ∧ b.all isDigitC = true then
      Except.ok ((digitsToNat a : ℚ) + (digitsToNat b : ℚ) / (10 : ℚ) ^ b.length)
    else Except.error "ValueError"
  | _ => Except.error "ValueError"

/-- Replace every character outside `[\d\s]` by a space
(`re.sub(r'[^\d\s]', ' ', line)`, line 74). -/
def cleanLine (l : List Char) : List Char :=
  l.map fun c => if isDigitC c || isWSChar c then c else ' '

/-- Whitespace split accumulator (`str.split`): `cur` is the token being
built. -/
def splitWSAux : List Char → List Char → List (List Char)
  | [], cur => if cur = [] then [] else [cur]
  | c :: cs, cur =>
    if isWSChar c then
      (if cur = [] then splitWSAux cs [] else cur :: splitWSAux cs [])
    else splitWSAux cs (cur ++ [c])

/-- Split a line on whitespace into its tokens (`str.split`). -/
def splitWS (l : List Char) : List (List Char) := splitWSAux l []

/-- Temperature values of one (timestamp-stripped) line: tokens that are
exactly five digits, each divided by 10 to convert deci-Kelvin to Kelvin
(lines 73-81). -/
def lineTemps (l : List Char) : List ℚ :=
  ((splitWS (cleanLine l)).filter fun p => decide (p.length = 5) && p.all isDigitC).map
    fun p => (digitsToNat p : ℚ) / 10

/-- Frame of one line: when at least `hgt*wid` temperature values are
present, the first `hgt*wid` reshaped row-major; otherwise no frame
(lines 84-89; the commented-out `fliplr` is not applied). -/
def frameOfValues (hgt wid : Nat) (vals : List ℚ) : Option (List (List ℚ)) :=
  if hgt * wid ≤ vals.length then some (reshape hgt wid (vals.take (hgt * wid))) else none

/-- Processing of one non-header line (lines 60-89): strip, skip when
empty, extract and remove the timestamp when present, then tokenize.
Returns the optional timestamp and the optional frame of the line. -/
def processLine (hgt wid : Nat) (line : List Char) :
    Except String (Option ℚ × Option (List (List ℚ))) :=
  if stripWS line = [] then Except.ok (none, none)
  else
    match searchTs (stripWS line) with
    | some g =>
      match parsePyFloat g with
      | Except.ok ts =>
        Except.ok (some ts, frameOfValues hgt wid (lineTemps (removeTsAll (stripWS line))))
      | Except.error e => Except.error e
    | none => Except.ok (none, frameOfValues hgt wid (lineTemps (stripWS line)))

/-- Fold of `processLine` over the non-header lines: frames and timestamps
are appended independently, in line order. -/
def loadLines (hgt wid : Nat) : List (List Char) → Except String (List (List (List ℚ)) × List ℚ)
  | [] => Except.ok ([], [])
  | line :: ls =>
    match processLine hgt wid line with
    | Except.error e => Except.error e
    | Except.ok (ots, ofr) =>
      match loadLines hgt wid ls with
      | Except.error e => Except.error e
      | Except.ok (fs, tss) =>
        Except.ok ((match ofr with | some f => f :: fs | none => fs),
                   (match ots with | some t => t :: tss | none => tss))

/-- Load from a text file given as its list of lines: the first line is a
header and is discarded (line 60). -/
def loadFromTextFile (hgt wid : Nat) (lines : List (List Char)) :
    Except String (List (List (List ℚ)) × List ℚ) :=
  loadLines hgt wid (lines.drop 1)

/-- Space-prefixed concatenation of tokens, the body of the C4 scenario
line. -/
def joinSp (toks : List (List Char)) : List Char :=
  toks.foldr (fun p acc => ' ' :: (p ++ acc)) []

/-- The C4 scenario line: a `t: 1.234` token followed by the given
tokens. -/
def mkTsLine (toks : List (List Char)) : List Char :=
  't' :: ':' :: ' ' :: '1' :: '.' :: '2' :: '3' :: '4' :: joinSp toks

/-! ### Batch matching

Embeds the matching loop of `TDengineConnector.batch_query_frames`
(thermal_dataset.py lines 246-264): for each returned row, in order, scan
the requested timestamps and assign the row's frame to the first one
within tolerance — whether or not that timestamp already holds a frame —
then stop scanning for this row.  `frames` is a dict keyed by the
requested timestamp, so a later row overwrites an earlier assignment. -/

/-- Dictionary lookup on an association list. -/
def lookupA {α : Type} : List (Int × α) → Int → Option α
  | [], _ => none
  | (k2, v) :: rest, k => if k2 = k then some v else lookupA rest k

/-- Dictionary insert: overwrite in place when the key exists, else append
(Python dict semantics). -/
def insertA {α : Type} : List (Int × α) → Int → α → List (Int × α)
  | [], k, v => [(k, v)]
  | (k2, v2) :: rest, k, v =>
    if k2 = k then (k2, v) :: rest else (k2, v2) :: insertA rest k v

/-- First requested timestamp within tolerance of `x` (the inner
`for target_ts in timestamps_ms` loop with its `break`). -/
def firstAccept (targets : List Int) (tol : Nat) (x : Int) : Option Int :=
  targets.find? fun t => decide ((x - t).natAbs ≤ tol)

/-- Batch matching: rows are `(row timestamp, payload)` pairs processed in
order; each row's payload is stored under the first requested timestamp
within tolerance, if any. -/
def batchQueryFrames {α : Type} (rows : List (Int × α)) (targets : List Int)
    (tol : Nat) : List (Int × α) :=
  rows.foldl (fun acc row =>
    match firstAccept targets tol row.1 with
    | some t => insertA acc t row.2
    | none => acc) []

/-- Modelled from the spec: batch matching in which each item takes the
first UNCONSUMED candidate within tolerance ("for each item in its
iteration order, take the first unconsumed candidate within tolerance").
Stated only to compare with `batchQueryFrames`; the source code has no
unconsumed check. -/
def batchMatchFirstUnconsumed {α : Type} (rows : List (Int × α)) (targets : List Int)
    (tol : Nat) : List (Int × α) :=
  rows.foldl (fun acc row =>
    match targets.find? (fun t => decide ((row.1 - t).natAbs ≤ tol) && (lookupA acc t).isNone) with
    | some t => insertA acc t row.2
    | none => acc) []

/-! ### Rendering

Embeds `AnnotationVisualizer` (visualizer.py): `normalize_frame_for_display`
(lines 41-63), the upscale of `visualize_frame` (lines 223-227) and the
box arithmetic of `draw_bbox` (lines 78-94).  Temperatures and normalized
coordinates are ℚ; numpy's `astype(np.uint8)` on a float is a C cast —
truncation toward zero, then wraparound modulo 256. -/

/-- Truncation toward zero (C float-to-int cast, Python `int()`). -/
def ratTrunc (q : ℚ) : Int := if 0 ≤ q then ⌊q⌋ else -⌊-q⌋

/-- Numpy `astype(np.uint8)` applied to a float value: truncate toward
zero, wrap modulo 256. -/
def npCastUInt8 (q : ℚ) : Nat := ((ratTrunc q) % 256).toNat

/-- Per-pixel 8-bit normalization of `normalize_frame_for_display`
line 61: `((frame - vmin) / (vmax - vmin) * 255).astype(np.uint8)` —
note: no clipping. -/
def normalizePixel (vmin vmax v : ℚ) : Nat :=
  npCastUInt8 ((v - vmin) / (vmax - vmin) * 255)

/-- Modelled from the spec: the clipped normalization
`clip((value - vmin)/(vmax - vmin), 0, 1) * 255` the spec prescribes
(also implemented verbatim in visualize_raw_thermal.py lines 103-104).
Stated only to compare with `normalizePixel`. -/
def normalizePixelSpec (vmin vmax v : ℚ) : Nat :=
  npCastUInt8 (min 1 (max 0 ((v - vmin) / (vmax - vmin))) * 255)

/-- Output size of the nearest-neighbour upscale of `visualize_frame`
lines 224-227, as (height, width) in pixels. -/
def scaledSize (hgt wid factor : Nat) : Nat × Nat := (hgt * factor, wid * factor)

/-- Pixel rectangle of `draw_bbox` lines 78-91: top-left corner and size
from a normalized YOLO center box on an image of height `ih` and width
`iw`. -/
def drawBboxRect (ih iw : Nat) (cx cy bw bh : ℚ) : Int × Int × Int × Int :=
  (ratTrunc ((cx - bw / 2) * iw), ratTrunc ((cy - bh / 2) * ih),
   ratTrunc (bw * iw), ratTrunc (bh * ih))

/-! ### Zero-fill on missing frame

Embeds `ThermalAnnotationDataset.__getitem__` lines 398-400: a `None`
lookup result is replaced by `np.zeros((40, 60))` and a warning is
logged (the Bool records whether the substitution warning was emitted). -/

def getFrameOrZeros (result : Option (List (List ℚ))) : List (List ℚ) × Bool :=
  match result with
  | none => (List.replicate 40 (List.replicate 60 (0 : ℚ)), true)
  | some f => (f, false)

lemma foldl_min_le_init (L : List Nat) : ∀ a : Nat, L.foldl min a ≤ a := by
  induction L with
  | nil => intro a; exact Nat.le_refl a
  | cons x L ih =>
    intro a
    rw [List.foldl_cons]
    exact Nat.le_trans (ih (min a x)) (Nat.min_le_left a x)

lemma find?_skip {α : Type} (p : α → Bool) (a : α) (l : List α) (h : ¬ p a = true) :
    (a :: l).find? p = l.find? p := List.find?_cons_of_neg l h

lemma find?_here {α : Type} (p : α → Bool) (a : α) (l : List α) (h : p a = true) :
    (a :: l).find? p = some a := List.find?_cons_of_pos l h

lemma scanMinAux_spec (q : Int) : ∀ (cs : List Int) (b : Int),
    ((b :: cs).map fun x => (x - q).natAbs).min?
      = some (scanMinAux q cs b ((b - q).natAbs)).2
    ∧ (b :: cs).find? (fun x => (x - q).natAbs == (scanMinAux q cs b ((b - q).natAbs)).2)
      = some (scanMinAux q cs b ((b - q).natAbs)).1 := by
  intro cs
  induction cs with
  | nil =>
    intro b
    constructor
    · simp [scanMinAux, List.min?_cons']
    · simp [scanMinAux]
  | cons c cs2 ih =>
    intro b
    by_cases hlt : (c - q).natAbs < (b - q).natAbs
    · have hr : scanMinAux q (c :: cs2) b ((b - q).natAbs)
          = scanMinAux q cs2 c ((c - q).natAbs) := by
        simp [scanMinAux, hlt]
      obtain ⟨ihmin, ihfind⟩ := ih c
      simp only [List.map_cons, List.min?_cons'] at ihmin
      have hval : List.foldl min ((c - q).natAbs) (cs2.map fun x => (x - q).natAbs)
          = (scanMinAux q cs2 c ((c - q).natAbs)).2 := Option.some.inj ihmin
      have hle : (scanMinAux q cs2 c ((c - q).natAbs)).2 ≤ (c - q).natAbs := by
        rw [← hval]; exact foldl_min_le_init _ _
      refine ⟨?_, ?_⟩
      · rw [hr]
        simp only [List.map_cons, List.min?_cons', List.foldl_cons]
        rw [Nat.min_eq_right (Nat.le_of_lt hlt), hval]
      · rw [hr]
        have hbne : ¬ (((b - q).natAbs == (scanMinAux q cs2 c ((c - q).natAbs)).2) = true) := by
          simp only [beq_iff_eq]
          omega
        rw [find?_skip (fun x => (x - q).natAbs == (scanMinAux q cs2 c ((c - q).natAbs)).2)
          b (c :: cs2) hbne]
        exact ihfind
    · have hr : scanMinAux q (c :: cs2) b ((b - q).natAbs)
          = scanMinAux q cs2 b ((b - q).natAbs) := by
        simp [scanMinAux, hlt]
      obtain ⟨ihmin, ihfind⟩ := ih b
      simp only [List.map_cons, List.min?_cons'] at ihmin
      have hval : List.foldl min ((b - q).natAbs) (cs2.map fun x => (x - q).natAbs)
          = (scanMinAux q cs2 b ((b - q).natAbs)).2 := Option.some.inj ihmin
      have hle : (scanMinAux q cs2 b ((b - q).natAbs)).2 ≤ (b - q).natAbs := by
        rw [← hval]; exact foldl_min_le_init _ _
      refine ⟨?_, ?_⟩
      · rw [hr]
        simp only [List.map_cons, List.min?_cons', List.foldl_cons]
        rw [Nat.min_eq_left (Nat.le_of_not_lt hlt), hval]
      · rw [hr]
        by_cases hb : ((b - q).natAbs == (scanMinAux q cs2 b ((b - q).natAbs)).2) = true
        · rw [find?_here (fun x => (x - q).natAbs == (scanMinAux q cs2 b ((b - q).natAbs)).2)
            b (c :: cs2) hb]
          rw [find?_here (fun x => (x - q).natAbs == (scanMinAux q cs2 b ((b - q).natAbs)).2)
            b cs2 hb] at ihfind
          exact ihfind
        · have hbne : (b - q).natAbs ≠ (scanMinAux q cs2 b ((b - q).natAbs)).2 := by
            simpa using hb
          have hcne : ¬ (((c - q).natAbs == (scanMinAux q cs2 b ((b - q).natAbs)).2) = true) := by
            simp only [beq_iff_eq]
            omega
          rw [find?_skip (fun x => (x - q).natAbs == (scanMinAux q cs2 b ((b - q).natAbs)).2)
            b cs2 hb] at ihfind
          rw [find?_skip (fun x => (x - q).natAbs == (scanMinAux q cs2 b ((b - q).natAbs)).2)
            b (c :: cs2) hb]
          rw [find?_skip (fun x => (x - q).natAbs == (scanMinAux q cs2 b ((b - q).natAbs)).2)
            c cs2 hcne]
          exact ihfind

/-- C1: Single-match temporal alignment.  For every query timestamp and
non-empty candidate list with minimum absolute delta `d`, the match returns
the first candidate attaining `d` when `d < tol`, returns no match when
`tol ≤ d` (a delta equal to the tolerance is rejected), and any returned
candidate is a member of the list whose delta is the minimum and below
tolerance. -/
theorem c1_single_match_aligner (q : Int) (tol : Nat) (cands : List Int) (d : Nat)
    (hmin : (cands.map fun x => (x - q).natAbs).min? = some d) :
    (d < tol → matchTimestamp q cands tol
        = cands.find? fun x => (x - q).natAbs == d)
    ∧ (tol ≤ d → matchTimestamp q cands tol = none)
    ∧ ∀ b, matchTimestamp q cands tol = some b →
        b ∈ cands ∧ (b - q).natAbs = d ∧ d < tol := by
  match cands with
  | [] => simp at hmin
  | c :: cs =>
    obtain ⟨hm, hf⟩ := scanMinAux_spec q cs c
    have hd : (scanMinAux q cs c ((c - q).natAbs)).2 = d := by
      rw [hm] at hmin
      exact Option.some.inj hmin
    refine ⟨?_, ?_, ?_⟩
    · intro hlt
      rw [matchTimestamp]
      simp only [hd, if_pos hlt]
      rw [← hd] at *
      exact hf.symm
    · intro hge
      rw [matchTimestamp]
      simp only [hd, if_neg (Nat.not_lt.mpr hge)]
    · intro b hb
      rw [matchTimestamp] at hb
      by_cases hlt : (scanMinAux q cs c ((c - q).natAbs)).2 < tol
      · simp only [if_pos hlt] at hb
        have hb1 : (scanMinAux q cs c ((c - q).natAbs)).1 = b := Option.some.inj hb
        rw [hb1] at hf
        refine ⟨List.mem_of_find?_eq_some hf, ?_, ?_⟩
        · have := List.find?_some hf
          simp only [beq_iff_eq] at this
          rw [this, hd]
        · rw [← hd]
          exact hlt
      · simp only [if_neg hlt] at hb
        exact Option.noConfusion hb

/-- Witness for C1 at the spec's own scenario: query 5000 against
candidates [4850, 4920, 5080] selects 4920 (delta 80, tie with 5080 broken
by first occurrence) at tolerance 100, and is rejected at tolerance 80. -/
theorem c1_single_match_aligner_witness :
    matchTimestamp 5000 [4850, 4920, 5080] 100 = some 4920
    ∧ matchTimestamp 5000 [4850, 4920, 5080] 80 = none := by
  constructor
  · have h := (c1_single_match_aligner 5000 100 [4850, 4920, 5080] 80
      (by decide)).1 (by decide)
    rw [h]
    decide
  · exact (c1_single_match_aligner 5000 80 [4850, 4920, 5080] 80
      (by decide)).2.1 (by decide)

/-! ### C8: encoding detection -/

lemma fromHex_total (s : List Char) (hhex : s.all isHexChar = true)
    (hev : s.length % 2 = 0) : ∃ bs, fromHex s = some bs := by
  induction s using fromHex.induct with
  | case1 => exact ⟨[], rfl⟩
  | case2 c => simp at hev
  | case3 c1 c2 rest hcond ih =>
    simp only [List.all_cons, Bool.and_eq_true] at hhex
    obtain ⟨h1, h2, h3⟩ := hhex
    simp only [List.length_cons] at hev
    obtain ⟨bs, hbs⟩ := ih h3 (by omega)
    refine ⟨(16 * hexVal c1 + hexVal c2) :: bs, ?_⟩
    simp [fromHex, hcond, hbs]
  | case4 c1 c2 rest hcond =>
    simp only [List.all_cons, Bool.and_eq_true] at hhex
    exact absurd (by simp [hhex.1, hhex.2.1]) hcond

lemma fromHex_none_of_odd (s : List Char) (hodd : s.length % 2 = 1) :
    fromHex s = none := by
  induction s using fromHex.induct with
  | case1 => simp at hodd
  | case2 c => rfl
  | case3 c1 c2 rest hcond ih =>
    simp only [List.length_cons] at hodd
    have hn : fromHex rest = none := ih (by omega)
    simp [fromHex, hcond, hn]
  | case4 c1 c2 rest hcond =>
    simp [fromHex, hcond]

/-- C8 (amended): the decoder first attempts hex decoding, accepting as hex
only all-hex-digit strings; every all-hex string of even length is decoded
as hexadecimal bytes, while a string that is not all-hex — or an all-hex
string of odd length, on which `bytes.fromhex` raises — is handed to the
base64 decoder instead. -/
theorem c8_hex_first_then_base64 (s : List Char) :
    (s.all isHexChar = true → s.length % 2 = 0 →
      decodeWire s = WireDecoded.hexBytes ((fromHex s).getD [])
      ∧ (fromHex s).isSome = true)
    ∧ (s.all isHexChar = false → decodeWire s = WireDecoded.b64Input s)
    ∧ (s.all isHexChar = true → s.length % 2 = 1 →
      decodeWire s = WireDecoded.b64Input s) := by
  refine ⟨?_, ?_, ?_⟩
  · intro hhex hev
    obtain ⟨bs, hbs⟩ := fromHex_total s hhex hev
    constructor
    · simp [decodeWire, hhex, hbs]
    · simp [hbs]
  · intro hhex
    simp [decodeWire, hhex]
  · intro hhex hodd
    simp [decodeWire, hhex, fromHex_none_of_odd s hodd]

/-- Witness for C8 at the even all-hex input "0aff" (decoded to bytes
[10, 255]) and at the non-hex input "0g". -/
theorem c8_hex_first_then_base64_witness :
    decodeWire ['0', 'a', 'f', 'f'] = WireDecoded.hexBytes [10, 255]
    ∧ decodeWire ['0', 'g'] = WireDecoded.b64Input ['0', 'g'] := by
  constructor
  · have h := ((c8_hex_first_then_base64 ['0', 'a', 'f', 'f']).1
      (by decide) (by decide)).1
    rw [h]
    decide
  · exact (c8_hex_first_then_base64 ['0', 'g']).2.1 (by decide)

/-- C8 counterexample: "abc" consists entirely of hex digits, yet the code
does not decode it as hexadecimal bytes — `bytes.fromhex` fails on the odd
digit count and the string falls through to the base64 decoder.  This
refutes the claim that every all-hex-digit string is decoded as hex. -/
theorem c8_counterexample :
    (['a', 'b', 'c'].all isHexChar = true)
    ∧ decodeWire ['a', 'b', 'c'] = WireDecoded.b64Input ['a', 'b', 'c'] := by
  decide

/-! ### C2: size dispatch -/

lemma byteToInt16_range (lo hi : Nat) :
    -32768 ≤ byteToInt16 lo hi ∧ byteToInt16 lo hi < 32768 := by
  unfold byteToInt16
  have h1 : hi % 256 < 256 := Nat.mod_lt hi (by omega)
  have h2 : lo % 256 < 256 := Nat.mod_lt lo (by omega)
  split <;> constructor <;> omega

lemma pairsToInt16_length (bytes : List Nat) :
    (pairsToInt16 bytes).length = bytes.length / 2 := by
  induction bytes using pairsToInt16.induct with
  | case1 b0 b1 rest ih =>
    simp only [pairsToInt16, List.length_cons, ih]
    omega
  | case2 l h =>
    cases l with
    | nil => rfl
    | cons a t =>
      cases t with
      | nil => simp [pairsToInt16]
      | cons x y => exact absurd rfl (h a x y)

lemma pairsToInt16_range (bytes : List Nat) :
    ∀ v ∈ pairsToInt16 bytes, -32768 ≤ v ∧ v < 32768 := by
  induction bytes using pairsToInt16.induct with
  | case1 b0 b1 rest ih =>
    intro v hv
    simp only [pairsToInt16, List.mem_cons] at hv
    cases hv with
    | inl h => rw [h]; exact byteToInt16_range b0 b1
    | inr h => exact ih v h
  | case2 l h =>
    intro v hv
    cases l with
    | nil => simp [pairsToInt16] at hv
    | cons a t =>
      cases t with
      | nil => simp [pairsToInt16] at hv
      | cons x y => exact absurd rfl (h a x y)

lemma quadsToBits_length (bytes : List Nat) :
    (quadsToBits bytes).length = bytes.length / 4 := by
  induction bytes using quadsToBits.induct with
  | case1 b0 b1 b2 b3 rest ih =>
    simp only [quadsToBits, List.length_cons, ih]
    omega
  | case2 l h =>
    match l, h with
    | [], _ => rfl
    | [a], _ => simp [quadsToBits]
    | [a, b], _ => simp [quadsToBits]
    | [a, b, c], _ => simp [quadsToBits]
    | a :: b :: c :: d :: t, h => exact absurd rfl (h a b c d t)

/-- C2: size dispatch of the binary decode.  A decompressed payload of
length `w*h*2` is read as `w*h` signed 16-bit integers in deci-Kelvin
(converted to Celsius), one of length `w*h*4` as `w*h` 32-bit floats in
Celsius, and any other length fails with the size-mismatch error,
producing no frame. -/
theorem c2_size_dispatch (bytes : List Nat) (w h : Nat) :
    (bytes.length = w * h * 2 →
      decodeBySize bytes w h
        = Except.ok ((pairsToInt16 bytes).map fun v => FrameVal.cel (deciKelvinToCelsius v))
      ∧ (pairsToInt16 bytes).length = w * h
      ∧ ∀ v ∈ pairsToInt16 bytes, -32768 ≤ v ∧ v < 32768)
    ∧ (bytes.length = w * h * 4 → bytes.length ≠ w * h * 2 →
      decodeBySize bytes w h = Except.ok ((quadsToBits bytes).map FrameVal.f32)
      ∧ (quadsToBits bytes).length = w * h)
    ∧ (bytes.length ≠ w * h * 2 → bytes.length ≠ w * h * 4 →
      decodeBySize bytes w h = Except.error "Unexpected data size"
      ∧ decompressFrameData bytes w h = Except.error "Unexpected data size") := by
  refine ⟨?_, ?_, ?_⟩
  · intro hlen
    refine ⟨?_, ?_, pairsToInt16_range bytes⟩
    · simp [decodeBySize, hlen]
    · rw [pairsToInt16_length, hlen]
      omega
  · intro hlen hne
    constructor
    · unfold decodeBySize
      rw [if_neg hne, if_pos hlen]
    · rw [quadsToBits_length, hlen]
      omega
  · intro h2 h4
    have he : decodeBySize bytes w h = Except.error "Unexpected data size" := by
      unfold decodeBySize
      rw [if_neg h2, if_neg h4]
    refine ⟨he, ?_⟩
    unfold decompressFrameData
    rw [he]
    rfl

/-- Witness for C2: a 2-byte payload decodes as one int16 deci-Kelvin
value, a 4-byte payload as one float32 word, and a 3-byte payload fails
with the size-mismatch error (all at width = height = 1). -/
theorem c2_size_dispatch_witness :
    decodeBySize [52, 117] 1 1
      = Except.ok ((pairsToInt16 [52, 117]).map fun v => FrameVal.cel (deciKelvinToCelsius v))
    ∧ decodeBySize [1, 2, 3, 4] 1 1
      = Except.ok ((quadsToBits [1, 2, 3, 4]).map FrameVal.f32)
    ∧ decompressFrameData [0, 0, 0] 1 1 = Except.error "Unexpected data size" :=
  ⟨((c2_size_dispatch [52, 117] 1 1).1 (by decide)).1,
   ((c2_size_dispatch [1, 2, 3, 4] 1 1).2.1 (by decide) (by decide)).1,
   ((c2_size_dispatch [0, 0, 0] 1 1).2.2 (by decide) (by decide)).2⟩

/-! ### C3: renderer normalization (code bug: no clip) -/

/-- C3 (code-bug demonstration): `normalize_frame_for_display` omits the
`clip` the spec prescribes.  With caller-supplied bounds vmin = 0,
vmax = 50: the in-range value 25 maps to 127 under both the code and the
clipped-spec formula, but the out-of-range value 100 wraps to 254 where
the spec requires 255, and the value -10 wraps to 205 where the spec
requires 0 — so pixels are not produced by clipping and wraparound does
occur. -/
theorem c3_normalization_missing_clip :
    normalizePixel 0 50 25 = 127 ∧ normalizePixelSpec 0 50 25 = 127
    ∧ normalizePixel 0 50 100 = 254 ∧ normalizePixelSpec 0 50 100 = 255
    ∧ normalizePixel 0 50 (-10) = 205 ∧ normalizePixelSpec 0 50 (-10) = 0 := by
  refine ⟨?_, ?_, ?_, ?_, ?_, ?_⟩ <;>
    simp only [normalizePixel, normalizePixelSpec, npCastUInt8, ratTrunc] <;>
    norm_num <;> rfl

/-! ### C7: zero-fill on missing frame -/

/-- C7: when the frame lookup for an annotation timestamp finds nothing,
the pipeline substitutes an all-zero frame of shape (40, 60) — 40 rows of
60 zeros — and logs the substitution; a found frame is passed through
unchanged with no log. -/
theorem c7_zero_fill_on_no_match :
    (getFrameOrZeros none).1 = List.replicate 40 (List.replicate 60 (0 : ℚ))
    ∧ (getFrameOrZeros none).2 = true
    ∧ (getFrameOrZeros none).1.length = 40
    ∧ (∀ row ∈ (getFrameOrZeros none).1, row.length = 60 ∧ ∀ v ∈ row, v = (0 : ℚ))
    ∧ (∀ f, getFrameOrZeros (some f) = (f, false)) := by
  refine ⟨rfl, rfl, by simp [getFrameOrZeros], ?_, fun f => rfl⟩
  intro row hrow
  simp only [getFrameOrZeros] at hrow
  have hr : row = List.replicate 60 (0 : ℚ) := List.eq_of_mem_replicate hrow
  subst hr
  exact ⟨by simp, fun v hv => List.eq_of_mem_replicate hv⟩

/-! ### C9: rendering geometry -/

/-- C9: an 8x nearest-neighbour upscale of a 40x60 frame yields a
320-row by 480-column image (480x320 pixels), and on that image the
normalized box (cx = 1/2, cy = 1/2, w = 1/10, h = 1/10) becomes the pixel
rectangle with top-left (216, 144), width 48 and height 32, whose corners
216..264 and 144..176 are centred at pixel (240, 160). -/
theorem c9_rendering_geometry :
    scaledSize 40 60 8 = (320, 480)
    ∧ drawBboxRect 320 480 (1 / 2) (1 / 2) (1 / 10) (1 / 10) = (216, 144, 48, 32)
    ∧ (216 : Int) + (216 + 48) = 2 * 240
    ∧ (144 : Int) + (144 + 32) = 2 * 160 := by
  refine ⟨rfl, ?_, by norm_num, by norm_num⟩
  simp only [drawBboxRect, ratTrunc, Prod.mk.injEq]
  norm_num

/-! ### C6: batch matching -/

lemma lookupA_insertA {α : Type} (m : List (Int × α)) (k k2 : Int) (v : α) :
    lookupA (insertA m k v) k2 = if k = k2 then some v else lookupA m k2 := by
  induction m with
  | nil => simp [insertA, lookupA]
  | cons p rest ih =>
    obtain ⟨k3, v3⟩ := p
    simp only [insertA]
    by_cases h3 : k3 = k
    · subst h3
      simp only [if_pos rfl, lookupA]
      by_cases h2 : k3 = k2 <;> simp [h2]
    · simp only [if_neg h3, lookupA, ih]
      by_cases h2 : k3 = k2
      · subst h2
        have hk : ¬ k = k3 := fun hh => h3 hh.symm
        simp [hk]
      · simp [h2]

lemma insertA_fst_mem {α : Type} (m : List (Int × α)) (k : Int) (v : α) :
    ∀ a ∈ insertA m k v, a.1 = k ∨ a.1 ∈ m.map Prod.fst := by
  induction m with
  | nil =>
    intro a ha
    simp only [insertA, List.mem_singleton] at ha
    subst ha
    exact Or.inl rfl
  | cons p rest ih =>
    obtain ⟨k3, v3⟩ := p
    intro a ha
    simp only [insertA] at ha
    by_cases h3 : k3 = k
    · rw [if_pos h3] at ha
      rcases List.mem_cons.mp ha with h | h
      · subst h; exact Or.inl h3
      · refine Or.inr ?_
        simp only [List.map_cons, List.mem_cons]
        exact Or.inr (List.mem_map_of_mem Prod.fst h)
    · rw [if_neg h3] at ha
      rcases List.mem_cons.mp ha with h | h
      · subst h
        refine Or.inr ?_
        simp
      · rcases ih a h with h2 | h2
        · exact Or.inl h2
        · refine Or.inr ?_
          simp only [List.map_cons, List.mem_cons]
          exact Or.inr h2

lemma insertA_pairwise {α : Type} (m : List (Int × α)) (k : Int) (v : α)
    (hm : m.Pairwise fun a b => a.1 ≠ b.1) :
    (insertA m k v).Pairwise fun a b => a.1 ≠ b.1 := by
  induction m with
  | nil => simp [insertA]
  | cons p rest ih =>
    obtain ⟨k3, v3⟩ := p
    rw [List.pairwise_cons] at hm
    simp only [insertA]
    by_cases h3 : k3 = k
    · rw [if_pos h3, List.pairwise_cons]
      exact ⟨fun b hb => hm.1 b hb, hm.2⟩
    · rw [if_neg h3, List.pairwise_cons]
      refine ⟨?_, ih hm.2⟩
      intro b hb
      rcases insertA_fst_mem rest k v b hb with h | h
      · rw [h]; exact h3
      · rcases List.mem_map.mp h with ⟨x, hx, hxe⟩
        rw [← hxe]
        exact hm.1 x hx

lemma getLast?_cons {β : Type} (a : β) (l : List β) :
    (a :: l).getLast? = match l.getLast? with
      | some v => some v
      | none => some a := by
  cases l with
  | nil => rfl
  | cons b t =>
    rw [List.getLast?_cons_cons]
    have hne : (b :: t).getLast? ≠ none := by
      simp [List.getLast?_eq_none_iff]
    cases hg : (b :: t).getLast? with
    | some v => rfl
    | none => exact absurd hg hne

lemma batchFold_lookup {α : Type} (targets : List Int) (tol : Nat) :
    ∀ (rows : List (Int × α)) (acc : List (Int × α)) (t : Int),
      lookupA (rows.foldl (fun acc row =>
        match firstAccept targets tol row.1 with
        | some u => insertA acc u row.2
        | none => acc) acc) t
      = match ((rows.filter fun r =>
            decide (firstAccept targets tol r.1 = some t)).map Prod.snd).getLast? with
        | some v => some v
        | none => lookupA acc t := by
  intro rows
  induction rows with
  | nil => intro acc t; simp
  | cons row rows ih =>
    intro acc t
    rw [List.foldl_cons, ih]
    by_cases hp : firstAccept targets tol row.1 = some t
    · have hfil : (List.filter (fun r => decide (firstAccept targets tol r.1 = some t))
          (row :: rows)) = row :: (rows.filter fun r =>
            decide (firstAccept targets tol r.1 = some t)) := by
        rw [List.filter_cons_of_pos]
        simp [hp]
      rw [hfil, List.map_cons, getLast?_cons, hp]
      cases hg : ((rows.filter fun r =>
          decide (firstAccept targets tol r.1 = some t)).map Prod.snd).getLast? with
      | some v => rfl
      | none =>
        show lookupA (insertA acc t row.2) t = some row.2
        rw [lookupA_insertA]
        simp
    · have hfil : (List.filter (fun r => decide (firstAccept targets tol r.1 = some t))
          (row :: rows)) = rows.filter fun r =>
            decide (firstAccept targets tol r.1 = some t) := by
        rw [List.filter_cons_of_neg]
        simp [hp]
      rw [hfil]
      cases hg : ((rows.filter fun r =>
          decide (firstAccept targets tol r.1 = some t)).map Prod.snd).getLast? with
      | some v => rfl
      | none =>
        cases ha : firstAccept targets tol row.1 with
        | some u =>
          have hu : ¬ u = t := fun hh => hp (by rw [ha, hh])
          show lookupA (insertA acc u row.2) t = lookupA acc t
          rw [lookupA_insertA]
          simp [hu]
        | none => rfl

/-- C6 (amended): batch matching assigns each row, scanned in iteration
order, to the FIRST requested timestamp within tolerance — regardless of
whether that timestamp already has an assignment, a later row overwriting
an earlier one — so the final map sends each requested timestamp `t` to
the payload of the LAST row whose first-acceptable timestamp is `t`, and
each requested timestamp holds at most one frame (the keys of the result
are pairwise distinct). -/
theorem c6_batch_first_within_tolerance {α : Type} (rows : List (Int × α))
    (targets : List Int) (tol : Nat) :
    (∀ t, lookupA (batchQueryFrames rows targets tol) t
      = ((rows.filter fun r =>
          decide (firstAccept targets tol r.1 = some t)).map Prod.snd).getLast?)
    ∧ (batchQueryFrames rows targets tol).Pairwise (fun a b => a.1 ≠ b.1) := by
  constructor
  · intro t
    rw [batchQueryFrames, batchFold_lookup]
    cases hg : ((rows.filter fun r =>
        decide (firstAccept targets tol r.1 = some t)).map Prod.snd).getLast? with
    | some v => rfl
    | none => rfl
  · rw [batchQueryFrames]
    have hgen : ∀ (rows2 : List (Int × α)) (acc : List (Int × α)),
        acc.Pairwise (fun a b => a.1 ≠ b.1) →
        (rows2.foldl (fun acc row =>
          match firstAccept targets tol row.1 with
          | some u => insertA acc u row.2
          | none => acc) acc).Pairwise (fun a b => a.1 ≠ b.1) := by
      intro rows2
      induction rows2 with
      | nil => intro acc h; simpa using h
      | cons row rows2 ih =>
        intro acc h
        rw [List.foldl_cons]
        cases ha : firstAccept targets tol row.1 with
        | some u =>
          simp only [ha]
          exact ih _ (insertA_pairwise acc u row.2 h)
        | none =>
          simp only [ha]
          exact ih _ h
    exact hgen rows [] (by simp)

/-- C6 counterexample: rows with timestamps 0 and 50, requested timestamps
[0, 60], tolerance 100.  The code assigns row 50 to timestamp 0 even
though row 0 already consumed it (overwriting it, leaving 60 unmatched),
whereas the claimed first-UNCONSUMED-candidate semantics would assign
row 50 to timestamp 60.  The two results differ, refuting the claim as
stated. -/
theorem c6_counterexample :
    batchQueryFrames [((0 : Int), (0 : Int)), (50, 50)] [0, 60] 100 = [(0, 50)]
    ∧ batchMatchFirstUnconsumed [((0 : Int), (0 : Int)), (50, 50)] [0, 60] 100
        = [(0, 0), (60, 50)]
    ∧ batchQueryFrames [((0 : Int), (0 : Int)), (50, 50)] [0, 60] 100
        ≠ batchMatchFirstUnconsumed [((0 : Int), (0 : Int)), (50, 50)] [0, 60] 100 := by
  refine ⟨by decide, by decide, by decide⟩

/-! ### C5: orientation correction -/

lemma reshape_getElem {α : Type} : ∀ (hgt wid r : Nat) (l : List α), r < hgt →
    (reshape hgt wid l)[r]? = some ((l.drop (r * wid)).take wid) := by
  intro hgt
  induction hgt with
  | zero => intro wid r l hr; omega
  | succ h2 ih =>
    intro wid r l hr
    cases r with
    | zero => simp [reshape]
    | succ r2 =>
      have hr2 : r2 < h2 := by omega
      simp only [reshape, List.getElem?_cons_succ]
      rw [ih wid r2 (l.drop wid) hr2, List.drop_drop]
      congr 2
      ring

lemma take_drop_getElem {α : Type} (l : List α) (n k i : Nat) (hik : i < k) :
    ((l.drop n).take k)[i]? = l[n + i]? := by
  rw [List.getElem?_take, if_pos hik, List.getElem?_drop]

lemma framePixel_ok (rows : List (List FrameVal)) (r c : Nat) :
    framePixel (Except.ok rows) r c = rowsPixel rows r c := rfl

lemma flip_pixel {α : Type} (vs : List α) (w h r c : Nat)
    (hlen : vs.length = w * h) (hr : r < h) (hc : c < w) :
    rowsPixel (flipLR (reshape h w vs)) r c = vs[r * w + (w - 1 - c)]? := by
  rw [rowsPixel, flipLR, List.getElem?_map, reshape_getElem h w r vs hr]
  simp only [Option.map_some', Option.some_bind]
  have hrw : r * w + w ≤ w * h := by
    have h1 : (r + 1) * w ≤ h * w := Nat.mul_le_mul_right w hr
    calc r * w + w = (r + 1) * w := by ring
      _ ≤ h * w := h1
      _ = w * h := Nat.mul_comm h w
  have hrowlen : ((vs.drop (r * w)).take w).length = w := by
    rw [List.length_take, List.length_drop, hlen]
    omega
  have hc2 : c < ((vs.drop (r * w)).take w).length := by
    rw [hrowlen]; exact hc
  rw [List.getElem?_reverse hc2, hrowlen]
  rw [take_drop_getElem _ _ _ _ (by omega)]

/-- C5: every frame decoded by the binary wire path — the int16 and the
float32 format alike, whichever the size dispatch selects — is
horizontally flipped after the row-major reshape: pixel (r, c) of the
decoded frame is element `r*w + (w-1-c)` of that branch's flat value
list.  The text-path frame is the plain row-major reshape with no flip:
its pixel (r, c) is element `r*w + c` of the value list.  The two paths
thus differ exactly by the flip. -/
theorem c5_orientation_flip (bytes : List Nat) (w h r c : Nat) (vals : List ℚ)
    (hr : r < h) (hc : c < w) (hvals : h * w ≤ vals.length) :
    (bytes.length = w * h * 2 →
      framePixel (decompressFrameData bytes w h) r c
        = ((pairsToInt16 bytes).map fun v =>
            FrameVal.cel (deciKelvinToCelsius v))[r * w + (w - 1 - c)]?)
    ∧ (bytes.length = w * h * 4 → bytes.length ≠ w * h * 2 →
      framePixel (decompressFrameData bytes w h) r c
        = ((quadsToBits bytes).map FrameVal.f32)[r * w + (w - 1 - c)]?)
    ∧ frameOfValues h w vals = some (reshape h w (vals.take (h * w)))
    ∧ rowsPixel (reshape h w (vals.take (h * w))) r c = vals[r * w + c]? := by
  refine ⟨?_, ?_, ?_, ?_⟩
  · intro hlen
    have hok : decompressFrameData bytes w h
        = Except.ok (flipLR (reshape h w ((pairsToInt16 bytes).map fun v =>
            FrameVal.cel (deciKelvinToCelsius v)))) := by
      unfold decompressFrameData decodeBySize
      rw [if_pos hlen]
      rfl
    rw [hok, framePixel_ok]
    refine flip_pixel _ w h r c ?_ hr hc
    rw [List.length_map, pairsToInt16_length, hlen]
    omega
  · intro hlen hne
    have hok : decompressFrameData bytes w h
        = Except.ok (flipLR (reshape h w ((quadsToBits bytes).map FrameVal.f32))) := by
      unfold decompressFrameData decodeBySize
      rw [if_neg hne, if_pos hlen]
      rfl
    rw [hok, framePixel_ok]
    refine flip_pixel _ w h r c ?_ hr hc
    rw [List.length_map, quadsToBits_length, hlen]
    omega
  · rw [frameOfValues, if_pos hvals]
  · rw [rowsPixel, reshape_getElem h w r (vals.take (h * w)) hr]
    simp only [Option.some_bind]
    rw [take_drop_getElem _ _ _ _ hc]
    rw [List.getElem?_take, if_pos (by
      have h1 : (r + 1) * w ≤ h * w := Nat.mul_le_mul_right w hr
      have h2 : r * w + w ≤ h * w := by
        calc r * w + w = (r + 1) * w := by ring
          _ ≤ h * w := h1
      omega)]

/-- Witness for C5 at pixel (0, 0) with w = 2, h = 1: a 4-byte payload
(two int16 values) and an 8-byte payload (two float32 words) both read
flipped flat index 1, while the text-path value list [10, 20] reads
unflipped flat index 0. -/
theorem c5_orientation_flip_witness :
    framePixel (decompressFrameData [1, 0, 2, 0] 2 1) 0 0
      = ((pairsToInt16 [1, 0, 2, 0]).map fun v =>
          FrameVal.cel (deciKelvinToCelsius v))[0 * 2 + (2 - 1 - 0)]?
    ∧ framePixel (decompressFrameData [1, 2, 3, 4, 5, 6, 7, 8] 2 1) 0 0
      = ((quadsToBits [1, 2, 3, 4, 5, 6, 7, 8]).map FrameVal.f32)[0 * 2 + (2 - 1 - 0)]?
    ∧ frameOfValues 1 2 [10, 20]
      = some (reshape 1 2 (List.take (1 * 2) [(10 : ℚ), 20]))
    ∧ rowsPixel (reshape 1 2 (List.take (1 * 2) [(10 : ℚ), 20])) 0 0
      = [(10 : ℚ), 20][0 * 2 + 0]? := by
  have h1 := c5_orientation_flip [1, 0, 2, 0] 2 1 0 0 [10, 20]
    (by decide) (by decide) (by decide)
  have h2 := c5_orientation_flip [1, 2, 3, 4, 5, 6, 7, 8] 2 1 0 0 [10, 20]
    (by decide) (by decide) (by decide)
  exact ⟨h1.1 (by decide), h2.2.1 (by decide) (by decide), h1.2.2.1, h1.2.2.2⟩

/-! ### C4 and C10: text-path decode -/

lemma ws_not_digit (c : Char) (hws : isWSChar c = true) : isDigitC c = false := by
  simp only [isWSChar, Bool.or_eq_true, decide_eq_true_eq] at hws
  rcases hws with ((((h | h) | h) | h) | h) | h <;> subst h <;> decide

lemma digit_not_ws (c : Char) (h : isDigitC c = true) : isWSChar c = false := by
  cases hb : isWSChar c with
  | true => rw [ws_not_digit c hb] at h; exact absurd h (by simp)
  | false => rfl

lemma digit_not_t (c : Char) (h : isDigitC c = true) : c ≠ 't' := by
  intro he
  subst he
  exact absurd h (by decide)

lemma joinSp_chars (toks : List (List Char))
    (h : ∀ p ∈ toks, p.all isDigitC = true) :
    ∀ c ∈ joinSp toks, c = ' ' ∨ isDigitC c = true := by
  induction toks with
  | nil => intro c hc; simp [joinSp] at hc
  | cons p ps ih =>
    intro c hc
    simp only [joinSp, List.foldr_cons, List.mem_cons, List.mem_append] at hc
    rcases hc with hc | hc
    · exact Or.inl hc
    · rcases hc with hc | hc
      · exact Or.inr (List.all_eq_true.mp (h p (by simp)) c hc)
      · exact ih (fun q hq => h q (by simp [hq])) c (by simpa [joinSp] using hc)

lemma joinSp_reverse_digit (toks : List (List Char))
    (h : ∀ p ∈ toks, p ≠ [] ∧ p.all isDigitC = true) :
    toks = [] ∨ ∃ c tl, (joinSp toks).reverse = c :: tl ∧ isDigitC c = true := by
  induction toks with
  | nil => exact Or.inl rfl
  | cons p ps ih =>
    refine Or.inr ?_
    have hrev : (joinSp (p :: ps)).reverse
        = ((joinSp ps).reverse ++ p.reverse) ++ [' '] := by
      simp [joinSp]
    rcases ih (fun q hq => h q (by simp [hq])) with hnil | ⟨c, tl, hc, hdig⟩
    · subst hnil
      have hp := h p (by simp)
      have hpne : p.reverse ≠ [] := by
        simpa [List.reverse_eq_nil_iff] using hp.1
      obtain ⟨c, tl, hct⟩ := List.exists_cons_of_ne_nil hpne
      refine ⟨c, tl ++ [' '], ?_, ?_⟩
      · rw [hrev, hct]
        simp [joinSp]
      · have hcmem : c ∈ p := by
          rw [← List.mem_reverse, hct]
          simp
        exact List.all_eq_true.mp hp.2 c hcmem
    · refine ⟨c, tl ++ p.reverse ++ [' '], ?_, hdig⟩
      rw [hrev, hc]
      simp

lemma stripWS_mkTsLine (toks : List (List Char))
    (h : ∀ p ∈ toks, p ≠ [] ∧ p.all isDigitC = true) :
    stripWS (mkTsLine toks) = mkTsLine toks := by
  have hfront : (mkTsLine toks).dropWhile isWSChar = mkTsLine toks := by
    rw [mkTsLine, List.dropWhile_cons_of_neg (by decide)]
  rw [stripWS, hfront]
  have hback : (mkTsLine toks).reverse.dropWhile isWSChar = (mkTsLine toks).reverse := by
    have hsplit : (mkTsLine toks).reverse
        = (joinSp toks).reverse ++ ['4', '3', '2', '.', '1', ' ', ':', 't'] := by
      simp [mkTsLine]
    rcases joinSp_reverse_digit toks h with hnil | ⟨c, tl, hc, hdig⟩
    · rw [hsplit, hnil]
      simp only [joinSp, List.foldr_nil, List.reverse_nil, List.nil_append]
      rw [List.dropWhile_cons_of_neg (by decide)]
    · rw [hsplit, hc]
      rw [List.cons_append, List.dropWhile_cons_of_neg (by simp [digit_not_ws c hdig])]
  rw [hback, List.reverse_reverse]

lemma takeWhile_joinSp (toks : List (List Char)) :
    (joinSp toks).takeWhile isTsChar = [] := by
  cases toks with
  | nil => rfl
  | cons p ps =>
    show ((' ' :: (p ++ joinSp ps)).takeWhile isTsChar) = []
    rw [List.takeWhile_cons_of_neg (by decide)]

lemma matchTsAt_mkTsLine (toks : List (List Char)) :
    matchTsAt (mkTsLine toks) = some (['1', '.', '2', '3', '4'], joinSp toks) := by
  have h1 : (' ' :: '1' :: '.' :: '2' :: '3' :: '4' :: joinSp toks).dropWhile isWSChar
      = '1' :: '.' :: '2' :: '3' :: '4' :: joinSp toks := by
    rw [List.dropWhile_cons_of_pos (by decide), List.dropWhile_cons_of_neg (by decide)]
  have h2 : ('1' :: '.' :: '2' :: '3' :: '4' :: joinSp toks).takeWhile isTsChar
      = ['1', '.', '2', '3', '4'] := by
    rw [List.takeWhile_cons_of_pos (by decide), List.takeWhile_cons_of_pos (by decide),
      List.takeWhile_cons_of_pos (by decide), List.takeWhile_cons_of_pos (by decide),
      List.takeWhile_cons_of_pos (by decide), takeWhile_joinSp]
  show matchTsAt ('t' :: ':' :: (' ' :: '1' :: '.' :: '2' :: '3' :: '4' :: joinSp toks))
      = some (['1', '.', '2', '3', '4'], joinSp toks)
  simp only [matchTsAt]
  simp only [h1, h2]
  simp [List.drop]

lemma searchTs_mkTsLine (toks : List (List Char)) :
    searchTs (mkTsLine toks) = some ['1', '.', '2', '3', '4'] := by
  have h := matchTsAt_mkTsLine toks
  show searchTs ('t' :: (':' :: ' ' :: '1' :: '.' :: '2' :: '3' :: '4' :: joinSp toks))
      = some ['1', '.', '2', '3', '4']
  simp only [searchTs]
  rw [show ('t' :: (':' :: ' ' :: '1' :: '.' :: '2' :: '3' :: '4' :: joinSp toks))
      = mkTsLine toks from rfl, h]

lemma matchTsAt_none_of_head (c1 : Char) (cs : List Char) (h : c1 ≠ 't') :
    matchTsAt (c1 :: cs) = none := by
  cases cs with
  | nil => rfl
  | cons c2 rest =>
    simp only [matchTsAt]
    rw [if_neg (fun hh => h hh.1)]

lemma removeTsFuel_no_t : ∀ (n : Nat) (l : List Char),
    (∀ c ∈ l, c ≠ 't') → l.length ≤ n → removeTsFuel n l = l := by
  intro n
  induction n with
  | zero =>
    intro l hl hn
    cases l with
    | nil => rfl
    | cons c cs => simp at hn
  | succ n2 ih =>
    intro l hl hn
    cases l with
    | nil => rfl
    | cons c cs =>
      show removeTsFuel (n2 + 1) (c :: cs) = c :: cs
      simp only [removeTsFuel]
      rw [matchTsAt_none_of_head c cs (hl c (by simp))]
      rw [ih cs (fun x hx => hl x (by simp [hx])) (by simpa using Nat.lt_succ_iff.mp hn)]

lemma removeTs_mkTsLine (toks : List (List Char))
    (h : ∀ p ∈ toks, p.all isDigitC = true) :
    removeTsAll (mkTsLine toks) = joinSp toks := by
  have hch : ∀ c ∈ joinSp toks, c ≠ 't' := by
    intro c hc
    rcases joinSp_chars toks h c hc with hsp | hdig
    · subst hsp; decide
    · exact digit_not_t c hdig
  rw [removeTsAll]
  have hl : (mkTsLine toks).length = (joinSp toks).length + 8 := by
    simp [mkTsLine]
  rw [hl]
  show removeTsFuel ((joinSp toks).length + 7 + 1)
      ('t' :: (':' :: ' ' :: '1' :: '.' :: '2' :: '3' :: '4' :: joinSp toks)) = joinSp toks
  simp only [removeTsFuel]
  rw [show ('t' :: (':' :: ' ' :: '1' :: '.' :: '2' :: '3' :: '4' :: joinSp toks))
      = mkTsLine toks from rfl, matchTsAt_mkTsLine]
  exact removeTsFuel_no_t _ _ hch
    (by show (joinSp toks).length ≤ (joinSp toks).length + 7; omega)

lemma cleanLine_id (l : List Char)
    (h : ∀ c ∈ l, isDigitC c = true ∨ isWSChar c = true) : cleanLine l = l := by
  induction l with
  | nil => rfl
  | cons c cs ih =>
    show (if isDigitC c || isWSChar c then c else ' ') :: cleanLine cs = c :: cs
    have hc : (isDigitC c || isWSChar c) = true := by
      rcases h c (by simp) with hh | hh <;> simp [hh]
    rw [if_pos hc, ih (fun x hx => h x (by simp [hx]))]

lemma splitWSAux_nonws (p : List Char) (hp : ∀ c ∈ p, isWSChar c = false) :
    ∀ (l cur : List Char), splitWSAux (p ++ l) cur = splitWSAux l (cur ++ p) := by
  induction p with
  | nil => intro l cur; simp
  | cons c p2 ih =>
    intro l cur
    show splitWSAux (c :: (p2 ++ l)) cur = _
    simp only [splitWSAux]
    rw [if_neg (by rw [hp c (by simp)]; simp)]
    rw [ih (fun x hx => hp x (by simp [hx])) l (cur ++ [c])]
    simp

lemma splitWSAux_joinSp (toks : List (List Char))
    (h : ∀ p ∈ toks, p ≠ [] ∧ ∀ c ∈ p, isWSChar c = false) :
    ∀ cur : List Char,
      splitWSAux (joinSp toks) cur = (if cur = [] then [] else [cur]) ++ toks := by
  induction toks with
  | nil =>
    intro cur
    show splitWSAux [] cur = _
    simp only [splitWSAux]
    by_cases hc : cur = [] <;> simp [hc]
  | cons p ps ih =>
    intro cur
    show splitWSAux (' ' :: (p ++ joinSp ps)) cur = _
    simp only [splitWSAux]
    rw [if_pos (by decide)]
    have hrest : splitWSAux (p ++ joinSp ps) [] = p :: ps := by
      rw [splitWSAux_nonws p (h p (by simp)).2 (joinSp ps) []]
      simp only [List.nil_append]
      rw [ih (fun q hq => h q (by simp [hq])) p]
      rw [if_neg (h p (by simp)).1]
      rfl
    by_cases hc : cur = []
    · rw [if_pos hc, hrest, if_pos hc]
      rfl
    · rw [if_neg hc, hrest, if_neg hc]
      rfl

lemma lineTemps_joinSp (toks : List (List Char))
    (h5 : ∀ p ∈ toks, p.length = 5 ∧ p.all isDigitC = true) :
    lineTemps (joinSp toks) = toks.map fun p => (digitsToNat p : ℚ) / 10 := by
  have hnw : ∀ p ∈ toks, p ≠ [] ∧ ∀ c ∈ p, isWSChar c = false := by
    intro p hp
    refine ⟨by intro he; have := (h5 p hp).1; rw [he] at this; simp at this, ?_⟩
    intro c hc
    exact digit_not_ws c (List.all_eq_true.mp (h5 p hp).2 c hc)
  have hclean : cleanLine (joinSp toks) = joinSp toks := by
    refine cleanLine_id _ ?_
    intro c hc
    rcases joinSp_chars toks (fun p hp => (h5 p hp).2) c hc with hc2 | hc2
    · subst hc2; exact Or.inr (by decide)
    · exact Or.inl hc2
  rw [lineTemps, hclean, splitWS, splitWSAux_joinSp toks hnw []]
  have hfil : List.filter (fun p => decide (p.length = 5) && p.all isDigitC) toks = toks := by
    refine List.filter_eq_self.mpr ?_
    intro p hp
    simp only [Bool.and_eq_true, decide_eq_true_eq]
    exact ⟨(h5 p hp).1, (h5 p hp).2⟩
  simp [hfil]

lemma parsePyFloat_group :
    parsePyFloat ['1', '.', '2', '3', '4'] = Except.ok ((1234 : ℚ) / 1000) := by
  have hsplit : (['1', '.', '2', '3', '4'].splitOn '.') = [['1'], ['2', '3', '4']] := by
    decide
  simp only [parsePyFloat, hsplit]
  rw [if_pos (by refine ⟨Or.inl (by simp), by decide, by decide⟩)]
  have h1 : digitsToNat ['1'] = 1 := rfl
  have h2 : digitsToNat ['2', '3', '4'] = 234 := rfl
  rw [h1, h2]
  norm_num

lemma processLine_mkTsLine (hgt wid : Nat) (toks : List (List Char))
    (h5 : ∀ p ∈ toks, p.length = 5 ∧ p.all isDigitC = true) :
    processLine hgt wid (mkTsLine toks)
      = Except.ok (some ((1234 : ℚ) / 1000),
          frameOfValues hgt wid (toks.map fun p => (digitsToNat p : ℚ) / 10)) := by
  have hne : ∀ p ∈ toks, p ≠ [] ∧ p.all isDigitC = true := by
    intro p hp
    refine ⟨?_, (h5 p hp).2⟩
    intro he
    have := (h5 p hp).1
    rw [he] at this
    simp at this
  have hstrip := stripWS_mkTsLine toks hne
  rw [processLine, hstrip]
  rw [if_neg (by simp [mkTsLine])]
  simp only [searchTs_mkTsLine, parsePyFloat_group,
    removeTs_mkTsLine toks (fun p hp => (h5 p hp).2),
    lineTemps_joinSp toks h5]

set_option maxRecDepth 4096 in
/-- C4: text-path decode.  Given a header line and a line holding a
`t: 1.234` token followed by 2400 exactly-five-digit tokens
(height 40, width 60), the loader discards the header, extracts 1.234 as
the line's timestamp, keeps exactly the 5-digit tokens, divides each by
10 (deci-Kelvin to Kelvin) and reshapes them row-major into one 40x60
frame; and any line whose token count falls short of height*width
contributes no frame and raises no error (its timestamp, when present, is
still recorded). -/
lemma loadLines_nil (hgt wid : Nat) : loadLines hgt wid [] = Except.ok ([], []) := rfl

lemma loadLines_cons (hgt wid : Nat) (line : List Char) (ls : List (List Char)) :
    loadLines hgt wid (line :: ls) = match processLine hgt wid line with
      | Except.error e => Except.error e
      | Except.ok (ots, ofr) =>
        match loadLines hgt wid ls with
        | Except.error e => Except.error e
        | Except.ok (fs, tss) =>
          Except.ok ((match ofr with | some f => f :: fs | none => fs),
                     (match ots with | some t => t :: tss | none => tss)) := rfl

theorem c4_text_decode (header : List Char) (toks : List (List Char))
    (hn : toks.length = 2400)
    (h5 : ∀ p ∈ toks, p.length = 5 ∧ p.all isDigitC = true) :
    loadFromTextFile 40 60 [header, mkTsLine toks]
      = Except.ok ([reshape 40 60 (toks.map fun p => (digitsToNat p : ℚ) / 10)],
                   [(1234 : ℚ) / 1000])
    ∧ ∀ (line : List Char) (ots : Option ℚ),
        processLine 40 60 line = Except.ok (ots, none) →
        loadFromTextFile 40 60 [header, line]
          = Except.ok ([], ots.elim [] fun t => [t]) := by
  constructor
  · rw [loadFromTextFile]
    show loadLines 40 60 [mkTsLine toks] = _
    have hlen : (toks.map fun p => (digitsToNat p : ℚ) / 10).length = 2400 := by
      rw [List.length_map, hn]
    have hfr : frameOfValues 40 60 (toks.map fun p => (digitsToNat p : ℚ) / 10)
        = some (reshape 40 60 (toks.map fun p => (digitsToNat p : ℚ) / 10)) := by
      rw [frameOfValues, if_pos (by rw [hlen])]
      congr 1
      rw [show (40 * 60 : Nat) = 2400 from rfl, ← hlen, List.take_length]
    rw [loadLines_cons, processLine_mkTsLine 40 60 toks h5, hfr]
    rfl
  · intro line ots hline
    rw [loadFromTextFile]
    show loadLines 40 60 [line] = _
    rw [loadLines_cons, hline]
    cases ots with
    | some t => rfl
    | none => rfl

/-- Witness for C4: 2400 copies of the token "29815" produce one frame of
Kelvin values 2981.5 with timestamp 1.234; the tokenless line "t: 1.234"
produces no frame but still records its timestamp, without error. -/
theorem c4_text_decode_witness :
    loadFromTextFile 40 60 [[], mkTsLine (List.replicate 2400 ['2', '9', '8', '1', '5'])]
      = Except.ok ([reshape 40 60 ((List.replicate 2400 ['2', '9', '8', '1', '5']).map
          fun p => (digitsToNat p : ℚ) / 10)], [(1234 : ℚ) / 1000])
    ∧ loadFromTextFile 40 60 [[], mkTsLine []]
      = Except.ok ([], [(1234 : ℚ) / 1000]) := by
  have h5 : ∀ p ∈ List.replicate 2400 ['2', '9', '8', '1', '5'],
      p.length = 5 ∧ p.all isDigitC = true := by
    intro p hp
    rw [List.eq_of_mem_replicate hp]
    exact ⟨rfl, rfl⟩
  have h := c4_text_decode [] (List.replicate 2400 ['2', '9', '8', '1', '5'])
    (by rw [List.length_replicate]) h5
  refine ⟨h.1, ?_⟩
  have hp := processLine_mkTsLine 40 60 [] (by intro p hp; simp at hp)
  exact h.2 (mkTsLine []) (some ((1234 : ℚ) / 1000)) (by rw [hp]; rfl)

/-- C10: a line carrying a `t:<float>` timestamp but fewer than
height*width five-digit tokens contributes its timestamp to the returned
timestamp list while contributing no frame: the loader's result for
`line :: ls` keeps the frames of `ls` unchanged and prepends only the
timestamp, so frames and timestamps can end up with different lengths and
same-index entries need not come from the same source line. -/
theorem c10_timestamp_without_frame (hgt wid : Nat) (line : List Char) (ts : ℚ)
    (ls : List (List Char))
    (hline : processLine hgt wid line = Except.ok (some ts, none)) :
    loadLines hgt wid (line :: ls)
      = Except.map (fun r => (r.1, ts :: r.2)) (loadLines hgt wid ls) := by
  rw [loadLines_cons, hline]
  cases hrec : loadLines hgt wid ls with
  | error e => rfl
  | ok pr => rfl

/-- Witness for C10: with height = width = 1 and the single data line
"t: 1.234" (no tokens), the loader returns no frame but one timestamp, so
the frames list (length 0) and the timestamps list (length 1) differ in
length. -/
theorem c10_timestamp_without_frame_witness :
    loadFromTextFile 1 1 [[], mkTsLine []] = Except.ok ([], [(1234 : ℚ) / 1000])
    ∧ ([] : List (List (List ℚ))).length ≠ [(1234 : ℚ) / 1000].length := by
  constructor
  · rw [loadFromTextFile]
    show loadLines 1 1 [mkTsLine []] = _
    have hp := processLine_mkTsLine 1 1 [] (by intro p hp; simp at hp)
    rw [c10_timestamp_without_frame 1 1 (mkTsLine []) ((1234 : ℚ) / 1000) []
      (by rw [hp]; rfl)]
    rfl
  · simp

end DataAnnotationQA
